import Mathlib

set_option maxRecDepth 100000

/-!
Verification of the custom-backend hook-event server and its views.

The definitions below are a shallow embedding of the TypeScript sources
of the repository:

- src/custom-backend/src/server.ts : the HTTP ingestion server (the
  in-memory event store, the POST /events handler with API-key check and
  JSON-parse failure handling, the GET routes, including the catch-all
  SPA route and the health route);
- src/custom-backend/src/hook.ts : the forwarding hook process (stdin,
  transcript enrichment, POST to the backend, output and exit behavior);
- src/custom-backend/src/ui.ts : the client-side view projections
  (fetchEvents normalization, chatMessages, fileOperations, stats).

JSON values are modelled by an inductive type; JavaScript property
access, truthiness, the logical-or default idiom and optional chaining
are modelled by total helper functions that agree with JavaScript on
every input on which the JavaScript evaluates without a thrown
TypeError.  The decidable predicate wfStore below carves out exactly the
payload shapes on which every modelled code path is throw-free; theorems
about the view projections carry it as a hypothesis.
-/

/-- A JSON value.  Numbers are modelled as integers; no claim depends on
fractional numeric values. -/
inductive Json where
  | null
  | bool (b : Bool)
  | num (n : Int)
  | str (s : String)
  | arr (elems : List Json)
  | obj (fields : List (String × Json))

/-- Property lookup.  Returns none both for a missing key and for a
non-object receiver (JavaScript would yield undefined there, except on a
null receiver, where it throws; throwing receivers are excluded by the
well-formedness predicates below). -/
def Json.getField : Json → String → Option Json
  | .obj fields, k => fields.lookup k
  | _, _ => none

/-- JavaScript truthiness of a JSON value. -/
def Json.truthy : Json → Bool
  | .null => false
  | .bool b => b
  | .num n => n != 0
  | .str s => s != ""
  | .arr _ => true
  | .obj _ => true

/-- The JavaScript idiom x logical-or d : take x when present and truthy,
otherwise the default d.  The first argument is none when x is
undefined. -/
def jsOr (x : Option Json) (d : Json) : Json :=
  match x with
  | some v => if v.truthy then v else d
  | none => d

/-- Optional chaining x questionmark-dot k : undefined when the receiver
is undefined or null, property access otherwise. -/
def jsOptChain (x : Option Json) (k : String) : Option Json :=
  match x with
  | none => none
  | some .null => none
  | some v => v.getField k

/-- Strict equality of a JSON value with a string literal. -/
def jsEqStr (j : Json) (s : String) : Bool :=
  match j with
  | .str t => t == s
  | _ => false

/-- Strict equality of a possibly-undefined JSON value with a string
literal. -/
def jsEqStrO (o : Option Json) (s : String) : Bool :=
  match o with
  | some (.str t) => t == s
  | _ => false

/-- The underlying string of a JSON string, defaulting to the empty
string on other values (only reached on inputs the well-formedness
predicates exclude). -/
def jsStr : Json → String
  | .str s => s
  | _ => ""

/-- The underlying string of a possibly-undefined JSON value. -/
def jsStrO (o : Option Json) : String :=
  match o with
  | some (.str s) => s
  | _ => ""

/-- The JavaScript string startsWith test, modelled over the character
list so that it evaluates by kernel reduction. -/
def strStartsWith (s p : String) : Bool := p.data.isPrefixOf s.data

/-- The JavaScript string includes test for a single character,
modelled over the character list. -/
def strContainsChar (s : String) (c : Char) : Bool := s.data.contains c

/-! ## The server (src/custom-backend/src/server.ts) -/

/-- Store capacity, MAX_EVENTS in server.ts. -/
def MAX_EVENTS : Nat := 50

/-- The configured secret, API_KEY in server.ts. -/
def API_KEY : String := "demo-key-12345"

/-- The append step of POST /events: events.unshift(payload) followed by
events.pop() when the length exceeds MAX_EVENTS. -/
def ingest (events : List Json) (payload : Json) : List Json :=
  let es := payload :: events
  if es.length > MAX_EVENTS then es.dropLast else es

/-- An HTTP request as the server handler consumes it: method, pathname,
the X-API-Key header (none when absent), and the body as parsed JSON
(none when req.json() would throw). -/
structure Request where
  method : String
  path : String
  apiKey : Option String
  body : Option Json

/-- A response body: a JSON document, the SPA HTML shell (APP_HTML,
whose markup no claim depends on), or plain text. -/
inductive RespBody where
  | json (j : Json)
  | html
  | text (s : String)

/-- An HTTP response: status, body, headers. -/
structure HttpResponse where
  status : Nat
  body : RespBody
  headers : List (String × String)

/-- The fetch handler of server.ts, returning the response together with
the store contents after the request.  The route order mirrors the
source: POST /events, then GET /api/events, then the SPA catch-all for
every GET path that is the root or neither starts with /api/ nor
contains a dot, then GET /health, then 404.  The uptime argument stands
for Math.floor(process.uptime()). -/
def serverFetch (events : List Json) (uptime : Nat) (req : Request) :
    HttpResponse × List Json :=
  if req.method = "POST" ∧ req.path = "/events" then
    if req.apiKey ≠ some API_KEY then
      (⟨401,
        .json (.obj [("success", .bool false), ("error", .str "Invalid API key")]),
        [("Content-Type", "application/json"), ("X-Server-Version", "1.0.0")]⟩,
       events)
    else
      match req.body with
      | some payload =>
        let events' := ingest events payload
        (⟨200,
          .json (.obj [("success", .bool true), ("message", .str "Event received"),
                       ("total_events", .num (events'.length : Int))]),
          [("Content-Type", "application/json"), ("X-Server-Version", "1.0.0"),
           ("X-Events-Count", toString events'.length)]⟩,
         events')
      | none =>
        (⟨400,
          .json (.obj [("success", .bool false), ("error", .str "Invalid JSON payload")]),
          [("Content-Type", "application/json")]⟩,
         events)
  else if req.method = "GET" ∧ req.path = "/api/events" then
    (⟨200, .json (.obj [("events", .arr events)]),
      [("Content-Type", "application/json")]⟩, events)
  else if req.method = "GET" ∧
      (req.path = "/" ∨ (¬ strStartsWith req.path "/api/" ∧ ¬ strContainsChar req.path '.')) then
    (⟨200, .html,
      [("Content-Type", "text/html"), ("X-Server-Version", "2.0.0")]⟩, events)
  else if req.method = "GET" ∧ req.path = "/health" then
    (⟨200,
      .json (.obj [("status", .str "healthy"), ("events_count", .num (events.length : Int)),
                   ("uptime_seconds", .num (uptime : Int))]),
      [("Content-Type", "application/json"), ("X-Server-Version", "1.0.0")]⟩, events)
  else
    (⟨404, .text "Not Found", []⟩, events)

/-- A POST /events request carrying the correct key and the given parsed
body. -/
def postReq (j : Json) : Request :=
  ⟨"POST", "/events", some API_KEY, some j⟩

/-- The store contents after ingesting the given payloads in order into
an initially empty store, each through the POST /events handler. -/
def storeAfter (ps : List Json) : List Json :=
  ps.foldl (fun es p => (serverFetch es 0 (postReq p)).2) []

/-! ## The view layer (src/custom-backend/src/ui.ts) -/

/-- The details record fetchEvents attaches to each event. -/
structure Details where
  message : Json
  tool : Json
  path : Json

/-- An event as the SPA holds it after fetchEvents processing. -/
structure UIEvent where
  type : Json
  timestamp : Json
  sessionId : String
  sessionName : Json
  details : Details
  raw : Json

/-- The per-record normalization inside fetchEvents in ui.ts: unwrap a
wrapped payload, choose the timestamp source by shape, truncate the
session id to eight characters, and build the details record with the
path fallback chain file_path, then path, then cwd.  The now argument
stands for new Date().toISOString(). -/
def processRaw (now : String) (raw : Json) : UIEvent :=
  let eventField := raw.getField "event"
  let event := eventField.getD raw
  let tsField :=
    match eventField with
    | some _ => raw.getField "timestamp"
    | none => event.getField "timestamp"
  { type := jsOr (event.getField "hook_event_name") (.str "Unknown")
  , timestamp := jsOr tsField (.str now)
  , sessionId := (jsStr (jsOr (event.getField "session_id") (.str ""))).take 8
  , sessionName := jsOr (event.getField "session_name") (.str "Unknown")
  , details :=
      { message := jsOr (event.getField "prompt") .null
      , tool := jsOr (event.getField "tool_name") .null
      , path := jsOr (jsOptChain (event.getField "tool_input") "file_path")
                  (jsOr (jsOptChain (event.getField "tool_input") "path")
                    (jsOr (event.getField "cwd") .null)) }
  , raw := raw }

/-- fetchEvents in ui.ts: the store contents served by GET /api/events,
mapped through the per-record normalization. -/
def fetchEvents (now : String) (store : List Json) : List UIEvent :=
  store.map (processRaw now)

/-- The tool-name allow-list of the file-operations view. -/
def includesTool (t : Json) : Bool :=
  match t with
  | .str s => ["Read", "Write", "Edit", "Glob", "Grep"].contains s
  | _ => false

/-- The modifying-operation list used by the filesModified counter. -/
def includesModTool (t : Json) : Bool :=
  match t with
  | .str s => ["Write", "Edit"].contains s
  | _ => false

/-- A row of the file-operations view.  The random id of the source is
omitted: it is fresh randomness with no observable role. -/
structure FileOpRow where
  type : Json
  path : Json
  timestamp : Json
  details : Json

/-- The fileOperations getter in ui.ts: filter to PostToolUse events
whose tool is allow-listed, then project each to a row. -/
def fileOperations (events : List UIEvent) : List FileOpRow :=
  (events.filter (fun e => jsEqStr e.type "PostToolUse" && includesTool e.details.tool)).map
    (fun e =>
      { type := e.details.tool
      , path := e.details.path
      , timestamp := e.timestamp
      , details := jsOr (jsOptChain (e.raw.getField "event") "tool_input") (.obj []) })

/-- The aggregate counters of the stats getter. -/
structure StatsR where
  totalEvents : Nat
  toolUses : Nat
  filesModified : Nat
  sessions : Nat

/-- One step of the single forEach pass of the stats getter: bump the
tool counters and insert a truthy session id into the session set
(modelled as a duplicate-free list). -/
def statsStep (st : Nat × Nat × List String) (e : UIEvent) : Nat × Nat × List String :=
  let toolUses := st.1 + (if jsEqStr e.type "PostToolUse" then 1 else 0)
  let filesModified :=
    st.2.1 + (if jsEqStr e.type "PostToolUse" && includesModTool e.details.tool then 1 else 0)
  let sessions :=
    if e.sessionId != "" then
      (if st.2.2.contains e.sessionId then st.2.2 else st.2.2 ++ [e.sessionId])
    else st.2.2
  (toolUses, filesModified, sessions)

/-- The stats getter in ui.ts. -/
def statsOf (events : List UIEvent) : StatsR :=
  let acc := events.foldl statsStep (0, 0, [])
  { totalEvents := events.length
  , toolUses := acc.1
  , filesModified := acc.2.1
  , sessions := acc.2.2.length }

/-- A chat message as the chatMessages getter produces it.  The random
id of the source is omitted; thinking is none for user messages, which
carry no thinking field. -/
structure ChatMsg where
  role : String
  content : String
  thinking : Option String
  timestamp : Json

/-- The text and thinking accumulation over the content blocks of an
assistant transcript line: msg.message.content, when an array, is
folded, appending block.text or block.thinking plus a newline by block
type. -/
def asstContent (line : Json) : String × String :=
  match line.getField "message" with
  | some m =>
    match m.getField "content" with
    | some (.arr blocks) =>
      blocks.foldl
        (fun ct b =>
          let c := if jsEqStrO (b.getField "type") "text" then
              ct.1 ++ jsStrO (b.getField "text") ++ "\n" else ct.1
          let t := if jsEqStrO (b.getField "type") "thinking" then
              ct.2 ++ jsStrO (b.getField "thinking") ++ "\n" else ct.2
          (c, t))
        ("", "")
    | _ => ("", "")
  | none => ("", "")

/-- One transcript line of a recentConversation array, processed inside
the chatMessages getter: user lines are skipped (handled by the prompt
branch), assistant lines are hashed on the tag asst: plus the first 50
characters of the accumulated text and pushed when unseen and
nonempty. -/
def lineStep (ets : Json) (st : List ChatMsg × List String) (line : Json) :
    List ChatMsg × List String :=
  if jsEqStrO (line.getField "type") "user" then st
  else if jsEqStrO (line.getField "type") "assistant" then
    let ct := asstContent line
    let hash := "asst:" ++ ct.1.take 50
    if !(st.2.contains hash) && (ct.1 != "" || ct.2 != "") then
      (st.1 ++ [⟨"assistant", ct.1, some ct.2, jsOr (line.getField "timestamp") ets⟩],
       hash :: st.2)
    else st
  else st

/-- The UserPromptSubmit prompt branch of the chatMessages loop body:
when the event type matches and the raw payload carries a truthy
prompt, hash on the tag user: plus the first 50 characters of the
prompt and push when unseen. -/
def chatPromptStep (st : List ChatMsg × List String) (e : UIEvent) :
    List ChatMsg × List String :=
  match jsOptChain (jsOptChain (some e.raw) "event") "prompt" with
  | some pv =>
    if jsEqStr e.type "UserPromptSubmit" && pv.truthy then
      let prompt := jsStr pv
      let hash := "user:" ++ prompt.take 50
      if st.2.contains hash then st
      else (st.1 ++ [⟨"user", prompt, none, e.timestamp⟩], hash :: st.2)
    else st
  | none => st

/-- The recentConversation branch of the chatMessages loop body: when
the raw payload carries a truthy recentConversation array, fold its
lines through the line step. -/
def chatRcStep (ets : Json) (raw : Json) (st : List ChatMsg × List String) :
    List ChatMsg × List String :=
  match raw.getField "recentConversation" with
  | some rc =>
    if rc.truthy then
      match rc with
      | .arr lines => lines.foldl (lineStep ets) st
      | _ => st
    else st
  | none => st

/-- One event of the chronological pass of the chatMessages getter: the
prompt branch followed by the recentConversation branch. -/
def chatStep (st : List ChatMsg × List String) (e : UIEvent) :
    List ChatMsg × List String :=
  chatRcStep e.timestamp e.raw (chatPromptStep st e)

/-- The chatMessages getter in ui.ts: clone and reverse the events to
process chronologically, run the deduplicating pass, and reverse the
result to show the latest messages first. -/
def chatMessagesModel (events : List UIEvent) : List ChatMsg :=
  let cron := events.reverse
  let st := cron.foldl chatStep ([], [])
  st.1.reverse

/-! ## Chronological stream and first-wins deduplication

The chatMessages getter interleaves extraction with a shared seen set.
The definitions below separate the two: chronoMsgs is the raw candidate
stream in processing order (oldest event first), and dedupFirstAux is
the generic keep-the-first-occurrence filter on a key.  A theorem below
proves the getter equal to their composition. -/

/-- The messages a single transcript line contributes, before
deduplication. -/
def lineMsgs (ets : Json) (line : Json) : List ChatMsg :=
  if jsEqStrO (line.getField "type") "user" then []
  else if jsEqStrO (line.getField "type") "assistant" then
    if (asstContent line).1 != "" || (asstContent line).2 != "" then
      [⟨"assistant", (asstContent line).1, some (asstContent line).2,
        jsOr (line.getField "timestamp") ets⟩]
    else []
  else []

/-- The prompt candidate a single event contributes, before
deduplication. -/
def promptCands (e : UIEvent) : List ChatMsg :=
  match jsOptChain (jsOptChain (some e.raw) "event") "prompt" with
  | some pv =>
    if jsEqStr e.type "UserPromptSubmit" && pv.truthy then
      [⟨"user", jsStr pv, none, e.timestamp⟩]
    else []
  | none => []

/-- The transcript-line candidates a single event contributes, before
deduplication. -/
def rcCands (ets : Json) (raw : Json) : List ChatMsg :=
  match raw.getField "recentConversation" with
  | some rc =>
    if rc.truthy then
      match rc with
      | .arr lines => lines.flatMap (lineMsgs ets)
      | _ => []
    else []
  | none => []

/-- The messages a single event contributes, before deduplication: the
prompt candidate, then the transcript-line candidates. -/
def eventMsgs (e : UIEvent) : List ChatMsg :=
  promptCands e ++ rcCands e.timestamp e.raw

/-- The candidate message stream in chronological processing order. -/
def chronoMsgs (events : List UIEvent) : List ChatMsg :=
  events.reverse.flatMap eventMsgs

/-- The deduplication fingerprint the getter computes: the role tag
(user: for user messages, asst: for assistant messages) followed by the
first 50 characters of the content. -/
def msgKey (m : ChatMsg) : String :=
  (if m.role == "user" then "user:" else "asst:") ++ m.content.take 50

/-- Keep the first occurrence of every key, given the keys already
seen. -/
def dedupFirstAux (key : ChatMsg → String) (seen : List String) :
    List ChatMsg → List ChatMsg
  | [] => []
  | m :: ms =>
    if seen.contains (key m) then dedupFirstAux key seen ms
    else m :: dedupFirstAux key (key m :: seen) ms

/-- Push one candidate through the shared seen set. -/
def pushOne (st : List ChatMsg × List String) (m : ChatMsg) :
    List ChatMsg × List String :=
  if st.2.contains (msgKey m) then st else (st.1 ++ [m], msgKey m :: st.2)

/-- Push a list of candidates through the shared seen set. -/
def pushMsgs (st : List ChatMsg × List String) (cands : List ChatMsg) :
    List ChatMsg × List String :=
  cands.foldl pushOne st

/-! ## Well-formedness

wfStore carves out the stores on which the modelled JavaScript evaluates
without a thrown TypeError and without string coercion of non-string
values: store entries are not null, a wrapped event field is not null,
session ids and prompts are strings when truthy, a truthy
recentConversation is an array of non-null lines whose assistant lines
carry a message, and content blocks carry string text and thinking
fields.  All view theorems are stated under this hypothesis; outside it
the browser code throws inside the getter (or coerces values to
strings), which a total embedding cannot mirror. -/

/-- A possibly-undefined value that is a string whenever it is truthy
(so that calling substring on it cannot throw). -/
def strOrFalsyO (o : Option Json) : Bool :=
  match o with
  | some (.str _) => true
  | some v => !v.truthy
  | none => true

/-- Well-formedness of one content block of an assistant line. -/
def wfBlock (b : Json) : Bool :=
  match b with
  | .null => false
  | _ =>
    (if jsEqStrO (b.getField "type") "text" then
       (match b.getField "text" with | some (.str _) => true | _ => false)
     else true) &&
    (if jsEqStrO (b.getField "type") "thinking" then
       (match b.getField "thinking" with | some (.str _) => true | _ => false)
     else true)

/-- Well-formedness of one recentConversation line. -/
def wfLine (l : Json) : Bool :=
  match l with
  | .null => false
  | _ =>
    if jsEqStrO (l.getField "type") "assistant" then
      match l.getField "message" with
      | some .null => false
      | none => false
      | some m =>
        match m.getField "content" with
        | some (.arr blocks) => blocks.all wfBlock
        | _ => true
    else true

/-- Well-formedness of one stored record. -/
def wfRaw (raw : Json) : Bool :=
  match raw with
  | .null => false
  | _ =>
    (match raw.getField "event" with | some .null => false | _ => true) &&
    strOrFalsyO (((raw.getField "event").getD raw).getField "session_id") &&
    strOrFalsyO (jsOptChain (raw.getField "event") "prompt") &&
    (match raw.getField "recentConversation" with
     | some rc =>
       if rc.truthy then
         match rc with
         | .arr lines => lines.all wfLine
         | _ => false
       else true
     | none => true)

/-- Well-formedness of a whole store. -/
def wfStore (store : List Json) : Bool := store.all wfRaw

/-! ## The forwarding hook (src/custom-backend/src/hook.ts) -/

/-- The timeout constant TIMEOUT_MS in hook.ts. -/
def TIMEOUT_MS : Nat := 5000

/-- Where a line of output goes. -/
inductive OutChannel where
  | stdout
  | stderr
deriving DecidableEq

/-- The JSON result the hook prints, HookOutput in hook.ts.  The field
named continue there is called cont here because continue is not a
valid Lean identifier position in a structure. -/
structure HookOutput where
  cont : Bool
  message : Option String

/-- One run of the hook process: the channel its JSON result is printed
on, the result itself, and the exit code. -/
structure HookRun where
  channel : OutChannel
  output : HookOutput
  exitCode : Nat

/-- The outcome of the outbound POST inside postToBackend: a 2xx
response with a parsed JSON body carrying an optional message field, a
2xx response whose body fails to parse as JSON, a non-2xx status with
its body text, an abort after TIMEOUT_MS, or a transport failure. -/
inductive BackendOutcome where
  | ok (message : Option String)
  | badJsonBody (errMsg : String)
  | non2xx (status : Nat) (body : String)
  | timeout
  | transportFail (errMsg : String)

/-- One invocation scenario of the hook: the stdin parse result (error
carries the engine message of the JSON.parse failure), whether a
transcript path was present and its read succeeded (none means no
transcript_path field), and the backend outcome. -/
structure HookScenario where
  stdin : Except String Json
  transcript : Option Bool
  backend : BackendOutcome

/-- The error message postToBackend throws for each failing outcome, or
none on success, mirroring the throw sites in hook.ts. -/
def backendError : BackendOutcome → Option String
  | .ok _ => none
  | .badJsonBody m => some m
  | .non2xx status body => some ("Backend returned " ++ toString status ++ ": " ++ body)
  | .timeout => some ("Backend request timed out after " ++ toString TIMEOUT_MS ++ "ms")
  | .transportFail m => some m

/-- The main function of hook.ts.  A transcript read failure is caught
inside main and only logged, so it does not leave the success path.  On
the success path the result is printed with console.log (stdout); in the
catch block it is printed with console.error (stderr).  Both paths set
continue to true and exit with code 0. -/
def runHook (s : HookScenario) : HookRun :=
  match s.stdin with
  | .error e => ⟨.stderr, ⟨true, some ("Backend hook error: " ++ e)⟩, 0⟩
  | .ok _ =>
    match backendError s.backend with
    | some e => ⟨.stderr, ⟨true, some ("Backend hook error: " ++ e)⟩, 0⟩
    | none =>
      let msg :=
        match s.backend with
        | .ok (some m) => if m != "" then m else "Posted event to backend"
        | _ => "Posted event to backend"
      ⟨.stdout, ⟨true, some msg⟩, 0⟩

/-! ## Spec-side comparison definitions -/

/-- The session count claim C7 asserts, written from the claim text: the
number of distinct session_id values across all currently-stored
records (records without a string session_id contribute none). -/
def distinctSessionIdValues (store : List Json) : Nat :=
  (store.filterMap (fun raw =>
    match ((raw.getField "event").getD raw).getField "session_id" with
    | some (.str s) => some s
    | _ => none)).dedup.length

/-- The truncated session identifier the SPA computes for a record: the
first eight characters of the effective session_id, empty when the
field is absent or falsy. -/
def truncSessionId (raw : Json) : String :=
  (jsStr (jsOr (((raw.getField "event").getD raw).getField "session_id") (.str ""))).take 8

/-- The one-pass characterization of the file-operations view used by
the amended claim C9: a record contributes a row exactly when its
effective hook_event_name is PostToolUse and its tool_name is
allow-listed, and the displayed path follows the fallback chain
file_path, then path, then cwd. -/
def fileOpRowOf (now : String) (raw : Json) : Option FileOpRow :=
  let eventField := raw.getField "event"
  let event := eventField.getD raw
  let tool := jsOr (event.getField "tool_name") .null
  if jsEqStr (jsOr (event.getField "hook_event_name") (.str "Unknown")) "PostToolUse"
      && includesTool tool then
    some
      { type := tool
      , path := jsOr (jsOptChain (event.getField "tool_input") "file_path")
                  (jsOr (jsOptChain (event.getField "tool_input") "path")
                    (jsOr (event.getField "cwd") .null))
      , timestamp := jsOr
          (match eventField with
           | some _ => raw.getField "timestamp"
           | none => event.getField "timestamp") (.str now)
      , details := jsOr (jsOptChain eventField "tool_input") (.obj []) }
  else none

/-- The session-set insertion step of the stats getter, isolated. -/
def sessStep (acc : List String) (s : String) : List String :=
  if s != "" then (if acc.contains s then acc else acc ++ [s]) else acc

/-! ## Concrete records used by counterexamples and witnesses -/

/-- A wrapped UserPromptSubmit payload with prompt hello first,
ingested first (hence older). -/
def cexPromptA : Json :=
  .obj [("event", .obj [("hook_event_name", .str "UserPromptSubmit"),
                        ("session_id", .str "sessionA1"),
                        ("prompt", .str "hello first")]),
        ("timestamp", .str "2024-01-01T00:00:00Z")]

/-- A wrapped UserPromptSubmit payload with prompt hello second,
ingested second (hence newer). -/
def cexPromptB : Json :=
  .obj [("event", .obj [("hook_event_name", .str "UserPromptSubmit"),
                        ("session_id", .str "sessionA2"),
                        ("prompt", .str "hello second")]),
        ("timestamp", .str "2024-01-01T00:00:05Z")]

/-- A wrapped UserPromptSubmit payload with prompt dup prompt at an
earlier timestamp. -/
def dupPromptA : Json :=
  .obj [("event", .obj [("hook_event_name", .str "UserPromptSubmit"),
                        ("prompt", .str "dup prompt")]),
        ("timestamp", .str "2024-01-01T00:00:00Z")]

/-- A wrapped UserPromptSubmit payload with the same prompt dup prompt
at a later timestamp. -/
def dupPromptB : Json :=
  .obj [("event", .obj [("hook_event_name", .str "UserPromptSubmit"),
                        ("prompt", .str "dup prompt")]),
        ("timestamp", .str "2024-01-01T00:00:09Z")]

/-- A flat record whose session_id shares its first eight characters
with cexSessB but differs afterwards. -/
def cexSessA : Json := .obj [("session_id", .str "aaaaaaaa1")]

/-- A flat record whose session_id shares its first eight characters
with cexSessA but differs afterwards. -/
def cexSessB : Json := .obj [("session_id", .str "aaaaaaaa2")]

/-- A flat PostToolUse record for an allow-listed tool whose tool_input
carries only a search pattern, alongside a cwd. -/
def cexToolRec : Json :=
  .obj [("hook_event_name", .str "PostToolUse"),
        ("tool_name", .str "Grep"),
        ("tool_input", .obj [("pattern", .str "foo")]),
        ("cwd", .str "/w"),
        ("session_id", .str "sess0001"),
        ("timestamp", .str "2024-01-01T00:00:01Z")]

/-! ## Theorems: the store and the POST /events handler -/

/-- Through the POST /events handler with the correct key, the store
evolves by the ingest step. -/
theorem post_store_step (es : List Json) (p : Json) :
    (serverFetch es 0 (postReq p)).2 = ingest es p := rfl

/-- Appending one more successful ingestion folds one more ingest
step. -/
theorem storeAfter_append (ps : List Json) (p : Json) :
    storeAfter (ps ++ [p]) = ingest (storeAfter ps) p := by
  simp [storeAfter, List.foldl_append, post_store_step]

/-- The ingest step on a store within capacity is a cons followed by a
truncation to capacity. -/
theorem ingest_eq_take (es : List Json) (p : Json) (h : es.length ≤ MAX_EVENTS) :
    ingest es p = (p :: es).take MAX_EVENTS := by
  unfold ingest
  by_cases hlen : (p :: es).length > MAX_EVENTS
  · have hc : es.length = MAX_EVENTS := by
      simp only [List.length_cons] at hlen
      omega
    simp only [hlen, if_pos]
    rw [List.dropLast_eq_take]
    have h1 : (p :: es).length - 1 = MAX_EVENTS := by
      simp [hc]
    rw [h1]
  · simp only [hlen, if_neg, not_false_eq_true]
    rw [List.take_of_length_le (by omega)]

/-- The capacity written in successor form, for take lemmas. -/
theorem max_events_succ : MAX_EVENTS = 49 + 1 := rfl

/-- The store after any sequence of successful ingestions is the
reversed sequence truncated to capacity. -/
theorem storeAfter_eq_take (ps : List Json) :
    storeAfter ps = ps.reverse.take MAX_EVENTS := by
  induction ps using List.reverseRecOn with
  | nil => rfl
  | append_singleton ps p ih =>
    have hrev : (ps ++ [p]).reverse = p :: ps.reverse := by simp
    rw [storeAfter_append, ih, hrev]
    have hlen : (ps.reverse.take MAX_EVENTS).length ≤ MAX_EVENTS :=
      List.length_take_le MAX_EVENTS ps.reverse
    rw [ingest_eq_take _ _ hlen]
    rw [max_events_succ]
    simp only [List.take_succ_cons, List.take_take]
    rw [Nat.min_eq_left (Nat.le_succ 49)]

/-- C1: starting from an empty store, after every sequence of
successful ingestions through POST /events the store holds exactly the
min of k and 50 most recently ingested records, newest first, and the
ingestion that would make the length 51 evicts exactly the oldest
(tail) record. -/
theorem store_fifo_bounded (ps : List Json) (p : Json) :
    storeAfter ps = ps.reverse.take MAX_EVENTS ∧
    (ps.length = MAX_EVENTS →
      storeAfter (ps ++ [p]) = p :: (storeAfter ps).dropLast) := by
  refine ⟨storeAfter_eq_take ps, fun hfull => ?_⟩
  rw [storeAfter_append, storeAfter_eq_take]
  have hrlen : ps.reverse.length = MAX_EVENTS := by
    rw [List.length_reverse]; exact hfull
  rw [List.take_of_length_le (le_of_eq hrlen)]
  unfold ingest
  have hgt : (p :: ps.reverse).length > MAX_EVENTS := by
    simp [hrlen]
  simp only [hgt, if_pos]
  rw [List.dropLast_eq_take, List.dropLast_eq_take]
  have h1 : (p :: ps.reverse).length - 1 = MAX_EVENTS := by simp [hrlen]
  rw [h1, hrlen, max_events_succ]
  simp only [List.take_succ_cons, Nat.add_sub_cancel]

/-- Witness for C1 at a concrete full store of 50 records. -/
theorem store_fifo_bounded_witness :
    (List.replicate MAX_EVENTS Json.null).length = MAX_EVENTS ∧
    storeAfter ((List.replicate MAX_EVENTS Json.null) ++ [Json.bool true]) =
      Json.bool true :: (storeAfter (List.replicate MAX_EVENTS Json.null)).dropLast :=
  ⟨List.length_replicate MAX_EVENTS Json.null,
   (store_fifo_bounded (List.replicate MAX_EVENTS Json.null)
      (Json.bool true)).2 (List.length_replicate MAX_EVENTS Json.null)⟩

/-- C2: a POST /events request whose X-API-Key header is missing or
differs from the configured secret is rejected with status 401 and the
store is unchanged. -/
theorem post_events_bad_key_rejected (es : List Json) (up : Nat)
    (k : Option String) (b : Option Json) (h : k ≠ some API_KEY) :
    (serverFetch es up ⟨"POST", "/events", k, b⟩).1.status = 401 ∧
    (serverFetch es up ⟨"POST", "/events", k, b⟩).2 = es := by
  simp [serverFetch, h]

/-- Witness for C2 with the header absent. -/
theorem post_events_bad_key_rejected_witness :
    (none : Option String) ≠ some API_KEY ∧
    ((serverFetch [] 0 ⟨"POST", "/events", none, none⟩).1.status = 401 ∧
     (serverFetch [] 0 ⟨"POST", "/events", none, none⟩).2 = []) :=
  ⟨by decide, post_events_bad_key_rejected [] 0 none none (by decide)⟩

/-- C3: a POST /events request with the correct key whose body does not
parse as JSON is rejected with status 400 and the store is unchanged. -/
theorem post_events_malformed_body_rejected (es : List Json) (up : Nat) :
    (serverFetch es up ⟨"POST", "/events", some API_KEY, none⟩).1.status = 400 ∧
    (serverFetch es up ⟨"POST", "/events", some API_KEY, none⟩).2 = es :=
  ⟨rfl, rfl⟩

/-- C10: a POST /events request with the correct key and any parsed
JSON body whatsoever is accepted with status 200 and a success body, and
the parsed value is appended unmodified at the head of the store; no
shape validation happens before storage. -/
theorem post_events_accepts_any_json (es : List Json) (up : Nat) (j : Json) :
    (serverFetch es up (postReq j)).1.status = 200 ∧
    (serverFetch es up (postReq j)).1.body =
      RespBody.json (.obj [("success", .bool true), ("message", .str "Event received"),
                           ("total_events", .num ((ingest es j).length : Int))]) ∧
    (serverFetch es up (postReq j)).2 = ingest es j ∧
    (ingest es j).head? = some j := by
  refine ⟨rfl, rfl, rfl, ?_⟩
  cases es with
  | nil => rfl
  | cons a as => simp only [ingest]; split <;> rfl

/-- C8: a GET /health request is answered by the SPA catch-all route
with the HTML shell, not by the health JSON branch: the catch-all
condition (neither an /api/ path nor a path containing a dot) matches
/health first, so the documented health response is unreachable. -/
theorem health_route_shadowed (es : List Json) (up : Nat) :
    (serverFetch es up ⟨"GET", "/health", none, none⟩).1.body = RespBody.html ∧
    (serverFetch es up ⟨"GET", "/health", none, none⟩).1.status = 200 ∧
    (serverFetch es up ⟨"GET", "/health", none, none⟩).2 = es :=
  ⟨rfl, rfl, rfl⟩

/-! ## Theorems: the forwarding hook -/

/-- Counterexample for C4 as stated: on unparseable stdin the hook
prints its continue-true JSON with console.error, so the result goes to
standard error, not standard output. -/
theorem hook_error_output_stderr_cex :
    (runHook ⟨.error "Unexpected end of JSON input", none, .ok none⟩).channel =
      OutChannel.stderr ∧
    OutChannel.stderr ≠ OutChannel.stdout :=
  ⟨rfl, by decide⟩

/-- C4 amended: for every scenario the hook reports continue true and
exits with code 0, never continue false; the JSON result goes to
standard output exactly when stdin parsed and the backend call
succeeded, and to standard error on the other error paths; a transcript
read failure (swallowed inside main) does not affect the outcome at
all. -/
theorem hook_always_continue_exit_zero (s : HookScenario) :
    (runHook s).output.cont = true ∧
    (runHook s).exitCode = 0 ∧
    ((runHook s).channel = OutChannel.stdout ↔
      ((∃ j, s.stdin = .ok j) ∧ backendError s.backend = none)) ∧
    (∀ t : Option Bool, runHook ⟨s.stdin, t, s.backend⟩ = runHook s) := by
  obtain ⟨stdin, tr, backend⟩ := s
  cases stdin <;> cases backend <;> simp [runHook, backendError]

/-! ## Theorems: the chat projection -/

/-- Pushing a concatenation is pushing the parts in order. -/
theorem pushMsgs_append (st : List ChatMsg × List String) (a b : List ChatMsg) :
    pushMsgs st (a ++ b) = pushMsgs (pushMsgs st a) b := by
  simp [pushMsgs, List.foldl_append]

/-- The line step is a push of the line candidates. -/
theorem lineStep_eq_push (ets : Json) (st : List ChatMsg × List String) (line : Json) :
    lineStep ets st line = pushMsgs st (lineMsgs ets line) := by
  unfold lineStep lineMsgs
  by_cases hu : jsEqStrO (line.getField "type") "user" = true
  · simp [hu, pushMsgs]
  · by_cases ha : jsEqStrO (line.getField "type") "assistant" = true
    · simp only [hu, ha, if_true, if_false]
      by_cases hne : ((asstContent line).1 != "" || (asstContent line).2 != "") = true
      · by_cases hc : st.2.contains ("asst:" ++ (asstContent line).1.take 50) = true
        · simp [hc, hne, pushMsgs, pushOne, msgKey]
        · simp [hc, hne, pushMsgs, pushOne, msgKey]
      · simp [hne, pushMsgs]
    · simp [hu, ha, pushMsgs]

/-- Folding the line step over the lines is a push of all the line
candidates. -/
theorem foldl_lineStep (ets : Json) (lines : List Json) (st : List ChatMsg × List String) :
    lines.foldl (lineStep ets) st = pushMsgs st (lines.flatMap (lineMsgs ets)) := by
  induction lines generalizing st with
  | nil => rfl
  | cons l ls ih =>
    rw [List.foldl_cons, ih, lineStep_eq_push, List.flatMap_cons, pushMsgs_append]

/-- The prompt branch is a push of the prompt candidate. -/
theorem chatPromptStep_eq_push (st : List ChatMsg × List String) (e : UIEvent) :
    chatPromptStep st e = pushMsgs st (promptCands e) := by
  unfold chatPromptStep promptCands
  cases hp : jsOptChain (jsOptChain (some e.raw) "event") "prompt" with
  | none => rfl
  | some pv =>
    by_cases hcond : (jsEqStr e.type "UserPromptSubmit" && pv.truthy) = true
    · simp only [hcond, if_true]
      by_cases hc : st.2.contains ("user:" ++ (jsStr pv).take 50) = true
      · simp [hc, pushMsgs, pushOne, msgKey]
      · simp [hc, pushMsgs, pushOne, msgKey]
    · simp [hcond, pushMsgs]

/-- The recentConversation branch is a push of the line candidates. -/
theorem chatRcStep_eq_push (ets : Json) (raw : Json) (st : List ChatMsg × List String) :
    chatRcStep ets raw st = pushMsgs st (rcCands ets raw) := by
  unfold chatRcStep rcCands
  cases hrc : raw.getField "recentConversation" with
  | none => rfl
  | some rc =>
    by_cases ht : rc.truthy = true
    · simp only [ht, if_true]
      cases rc <;> simp [foldl_lineStep, pushMsgs]
    · simp [ht, pushMsgs]

/-- The whole loop body is a push of the event candidates. -/
theorem chatStep_eq_push (st : List ChatMsg × List String) (e : UIEvent) :
    chatStep st e = pushMsgs st (eventMsgs e) := by
  unfold chatStep eventMsgs
  rw [chatRcStep_eq_push, chatPromptStep_eq_push, pushMsgs_append]

/-- The chronological fold is a push of the whole candidate stream. -/
theorem foldl_chatStep (es : List UIEvent) (st : List ChatMsg × List String) :
    es.foldl chatStep st = pushMsgs st (es.flatMap eventMsgs) := by
  induction es generalizing st with
  | nil => rfl
  | cons e es ih =>
    rw [List.foldl_cons, ih, chatStep_eq_push, List.flatMap_cons, pushMsgs_append]

/-- The message component of a push is the first-wins deduplication of
the candidates, keyed on msgKey, appended to the accumulator. -/
theorem pushMsgs_fst (cands : List ChatMsg) (msgs : List ChatMsg) (seen : List String) :
    (pushMsgs (msgs, seen) cands).1 = msgs ++ dedupFirstAux msgKey seen cands := by
  induction cands generalizing msgs seen with
  | nil => simp [pushMsgs, dedupFirstAux]
  | cons m ms ih =>
    have hstep : pushMsgs (msgs, seen) (m :: ms) = pushMsgs (pushOne (msgs, seen) m) ms := rfl
    rw [hstep]
    by_cases h : seen.contains (msgKey m) = true
    · have hm : msgKey m ∈ seen := by simpa using h
      have h1 : pushOne (msgs, seen) m = (msgs, seen) := by simp [pushOne, hm]
      have h2 : dedupFirstAux msgKey seen (m :: ms) = dedupFirstAux msgKey seen ms := by
        simp [dedupFirstAux, hm]
      rw [h1, h2, ih]
    · have hm : msgKey m ∉ seen := by simpa using h
      have h1 : pushOne (msgs, seen) m = (msgs ++ [m], msgKey m :: seen) := by
        simp [pushOne, hm]
      have h2 : dedupFirstAux msgKey seen (m :: ms) =
          m :: dedupFirstAux msgKey (msgKey m :: seen) ms := by
        simp [dedupFirstAux, hm]
      rw [h1, h2, ih, List.append_assoc]
      rfl

/-- The chatMessages getter equals the first-wins deduplication of the
chronological candidate stream, reversed to newest first. -/
theorem chatMessages_dedup (events : List UIEvent) :
    chatMessagesModel events =
      (dedupFirstAux msgKey [] (chronoMsgs events)).reverse := by
  show (List.foldl chatStep ([], []) events.reverse).1.reverse = _
  rw [foldl_chatStep, pushMsgs_fst]
  simp [chronoMsgs]

/-- Every kept message came from the candidate stream. -/
theorem mem_of_mem_dedupFirstAux (key : ChatMsg → String) (l : List ChatMsg) :
    ∀ seen m, m ∈ dedupFirstAux key seen l → m ∈ l := by
  induction l with
  | nil => intro seen m h; simp [dedupFirstAux] at h
  | cons x xs ih =>
    intro seen m h
    by_cases hx : key x ∈ seen
    · have heq : dedupFirstAux key seen (x :: xs) = dedupFirstAux key seen xs := by
        simp [dedupFirstAux, hx]
      rw [heq] at h
      exact List.mem_cons_of_mem x (ih seen m h)
    · have heq : dedupFirstAux key seen (x :: xs) =
          x :: dedupFirstAux key (key x :: seen) xs := by
        simp [dedupFirstAux, hx]
      rw [heq] at h
      rcases List.mem_cons.mp h with rfl | h
      · exact List.mem_cons_self _ _
      · exact List.mem_cons_of_mem x (ih _ m h)

/-- Every kept message has its key outside the seen set, and is the
first element of the candidate stream carrying its key. -/
theorem dedupFirstAux_spec (key : ChatMsg → String) (l : List ChatMsg) :
    ∀ seen m, m ∈ dedupFirstAux key seen l →
      key m ∉ seen ∧ l.find? (fun x => key x == key m) = some m := by
  induction l with
  | nil => intro seen m h; simp [dedupFirstAux] at h
  | cons x xs ih =>
    intro seen m h
    by_cases hx : key x ∈ seen
    · have heq : dedupFirstAux key seen (x :: xs) = dedupFirstAux key seen xs := by
        simp [dedupFirstAux, hx]
      rw [heq] at h
      obtain ⟨h1, h2⟩ := ih seen m h
      refine ⟨h1, ?_⟩
      have hne : (key x == key m) = false := by
        rw [beq_eq_false_iff_ne]
        intro hc
        exact h1 (hc ▸ hx)
      simp only [List.find?_cons, hne]
      exact h2
    · have heq : dedupFirstAux key seen (x :: xs) =
          x :: dedupFirstAux key (key x :: seen) xs := by
        simp [dedupFirstAux, hx]
      rw [heq] at h
      rcases List.mem_cons.mp h with rfl | hmem
      · refine ⟨hx, ?_⟩
        simp [List.find?_cons]
      · obtain ⟨h1, h2⟩ := ih (key x :: seen) m hmem
        have hns : key m ∉ seen := fun hc => h1 (List.mem_cons_of_mem _ hc)
        have hnx : key m ≠ key x := by
          intro hc
          exact h1 (by rw [hc]; exact List.mem_cons_self _ _)
        refine ⟨hns, ?_⟩
        have hne : (key x == key m) = false := by
          rw [beq_eq_false_iff_ne]
          exact fun hc => hnx hc.symm
        simp only [List.find?_cons, hne]
        exact h2

/-- Kept messages have pairwise distinct keys. -/
theorem dedupFirstAux_pairwise (key : ChatMsg → String) (l : List ChatMsg) :
    ∀ seen, (dedupFirstAux key seen l).Pairwise (fun a b => key a ≠ key b) := by
  induction l with
  | nil => intro seen; simp [dedupFirstAux]
  | cons x xs ih =>
    intro seen
    by_cases hx : key x ∈ seen
    · have heq : dedupFirstAux key seen (x :: xs) = dedupFirstAux key seen xs := by
        simp [dedupFirstAux, hx]
      rw [heq]
      exact ih seen
    · have heq : dedupFirstAux key seen (x :: xs) =
          x :: dedupFirstAux key (key x :: seen) xs := by
        simp [dedupFirstAux, hx]
      rw [heq]
      refine List.Pairwise.cons ?_ (ih _)
      intro b hb
      obtain ⟨h1, _⟩ := dedupFirstAux_spec key xs _ b hb
      intro hc
      exact h1 (by rw [← hc]; exact List.mem_cons_self _ _)

/-- find? only depends on the predicate values at the members. -/
theorem find?_congr_members {α : Type} (l : List α) (p q : α → Bool)
    (h : ∀ x ∈ l, p x = q x) : l.find? p = l.find? q := by
  induction l with
  | nil => rfl
  | cons x xs ih =>
    have hx := h x (List.mem_cons_self x xs)
    rw [List.find?_cons, List.find?_cons, ← hx]
    cases hp : p x with
    | true => rfl
    | false => exact ih (fun y hy => h y (List.mem_cons_of_mem x hy))

/-- Line candidates all carry the assistant role. -/
theorem lineMsgs_roles (ets line : Json) :
    ∀ m ∈ lineMsgs ets line, m.role = "assistant" := by
  intro m hm
  unfold lineMsgs at hm
  split at hm
  · simp at hm
  · split at hm
    · split at hm
      · rw [List.mem_singleton] at hm
        subst hm
        rfl
      · simp at hm
    · simp at hm

/-- Prompt candidates all carry the user role. -/
theorem promptCands_roles (e : UIEvent) :
    ∀ m ∈ promptCands e, m.role = "user" := by
  intro m hm
  unfold promptCands at hm
  split at hm
  · split at hm
    · rw [List.mem_singleton] at hm
      subst hm
      rfl
    · simp at hm
  · simp at hm

/-- Transcript-branch candidates all carry the assistant role. -/
theorem rcCands_roles (ets raw : Json) :
    ∀ m ∈ rcCands ets raw, m.role = "assistant" := by
  intro m hm
  unfold rcCands at hm
  split at hm
  · split at hm
    · split at hm
      · obtain ⟨line, hline, hm⟩ := List.mem_flatMap.mp hm
        exact lineMsgs_roles ets line m hm
      · simp at hm
    · simp at hm
  · simp at hm

/-- Every candidate in the chronological stream carries the user or the
assistant role. -/
theorem chronoMsgs_roles (events : List UIEvent) :
    ∀ m ∈ chronoMsgs events, m.role = "user" ∨ m.role = "assistant" := by
  intro m hm
  obtain ⟨e, _, hm⟩ := List.mem_flatMap.mp hm
  rcases List.mem_append.mp hm with h | h
  · exact Or.inl (promptCands_roles e m h)
  · exact Or.inr (rcCands_roles e.timestamp e.raw m h)

/-- Appending to a fixed tag is injective. -/
theorem string_tag_cancel (tag a b : String) : tag ++ a = tag ++ b ↔ a = b := by
  constructor
  · intro h
    have hd := congrArg String.data h
    simp only [String.data_append] at hd
    exact String.ext (List.append_cancel_left hd)
  · intro h
    rw [h]

/-- The user and assistant tags never produce equal fingerprints. -/
theorem user_tag_ne_asst_tag (a b : String) : "user:" ++ a ≠ "asst:" ++ b := by
  intro h
  have hd := congrArg String.data h
  simp [String.data_append] at hd

/-- The assistant and user tags never produce equal fingerprints. -/
theorem asst_tag_ne_user_tag (a b : String) : "asst:" ++ a ≠ "user:" ++ b :=
  fun h => user_tag_ne_asst_tag b a h.symm

/-- For messages whose role is user or assistant, equality of the
deduplication fingerprints coincides with equality of the role together
with the 50-character content fragment: the role tags user: and asst:
never collide across roles, and within a role the tag cancels. -/
theorem msgKey_eq_iff (m1 m2 : ChatMsg)
    (h1 : m1.role = "user" ∨ m1.role = "assistant")
    (h2 : m2.role = "user" ∨ m2.role = "assistant") :
    (msgKey m1 = msgKey m2) ↔
      (m1.role = m2.role ∧ m1.content.take 50 = m2.content.take 50) := by
  unfold msgKey
  rcases h1 with h1 | h1 <;> rcases h2 with h2 | h2 <;> rw [h1, h2]
  · simp [string_tag_cancel]
  · simp [user_tag_ne_asst_tag]
  · simp [asst_tag_ne_user_tag]
  · simp [string_tag_cancel]

/-- Counterexample for C5 as stated: two prompt-bearing records are
ingested in order (hello first, then hello second); the chat projection
returns the newer message first, not oldest first. -/
theorem chat_not_oldest_first_cex :
    ((chatMessagesModel (fetchEvents "now" (storeAfter [cexPromptA, cexPromptB]))).map
        (fun m => m.content)) = ["hello second", "hello first"] ∧
    (["hello second", "hello first"] : List String) ≠ ["hello first", "hello second"] :=
  ⟨rfl, by decide⟩

/-- C5 amended: the chat projection builds its message list
chronologically, oldest first (that is the order deduplication sees),
and returns the reverse of that list, newest first. -/
theorem chat_returns_newest_first (now : String) (store : List Json)
    (_h : wfStore store = true) :
    chatMessagesModel (fetchEvents now store) =
      (dedupFirstAux msgKey [] (chronoMsgs (fetchEvents now store))).reverse :=
  chatMessages_dedup (fetchEvents now store)

/-- Witness for C5 amended at a concrete two-record store. -/
theorem chat_returns_newest_first_witness :
    wfStore (storeAfter [cexPromptA, cexPromptB]) = true ∧
    chatMessagesModel (fetchEvents "now" (storeAfter [cexPromptA, cexPromptB])) =
      (dedupFirstAux msgKey []
        (chronoMsgs (fetchEvents "now" (storeAfter [cexPromptA, cexPromptB])))).reverse :=
  ⟨rfl, chat_returns_newest_first "now" (storeAfter [cexPromptA, cexPromptB]) rfl⟩

/-- C6: the chat projection deduplicates on the role together with the
first 50 characters of the content: no two displayed messages agree on
both, and every displayed message is the chronologically first
candidate carrying its fingerprint (first occurrence wins). -/
theorem chat_dedup_first_wins (now : String) (store : List Json)
    (_h : wfStore store = true) :
    (chatMessagesModel (fetchEvents now store)).Pairwise
      (fun a b => ¬(a.role = b.role ∧ a.content.take 50 = b.content.take 50)) ∧
    (∀ m ∈ chatMessagesModel (fetchEvents now store),
      (chronoMsgs (fetchEvents now store)).find?
        (fun x => x.role == m.role && x.content.take 50 == m.content.take 50) = some m) := by
  have hmaster := chatMessages_dedup (fetchEvents now store)
  constructor
  · rw [hmaster, List.pairwise_reverse]
    have hpw := dedupFirstAux_pairwise msgKey (chronoMsgs (fetchEvents now store)) []
    refine List.Pairwise.imp_of_mem ?_ hpw
    intro a b ha hb hk
    have hra := chronoMsgs_roles (fetchEvents now store) a
      (mem_of_mem_dedupFirstAux msgKey _ [] a ha)
    have hrb := chronoMsgs_roles (fetchEvents now store) b
      (mem_of_mem_dedupFirstAux msgKey _ [] b hb)
    intro hcon
    exact hk ((msgKey_eq_iff a b hra hrb).mpr ⟨hcon.1.symm, hcon.2.symm⟩)
  · intro m hm
    rw [hmaster, List.mem_reverse] at hm
    obtain ⟨-, hfind⟩ := dedupFirstAux_spec msgKey (chronoMsgs (fetchEvents now store)) [] m hm
    have hrm := chronoMsgs_roles (fetchEvents now store) m
      (mem_of_mem_dedupFirstAux msgKey _ [] m hm)
    have hpred : ∀ x ∈ chronoMsgs (fetchEvents now store),
        (fun x => x.role == m.role && x.content.take 50 == m.content.take 50) x =
          (fun x => msgKey x == msgKey m) x := by
      intro x hx
      have hrx := chronoMsgs_roles (fetchEvents now store) x hx
      rw [Bool.eq_iff_iff]
      simp only [Bool.and_eq_true, beq_iff_eq]
      exact (msgKey_eq_iff x m hrx hrm).symm
    rw [find?_congr_members (chronoMsgs (fetchEvents now store)) _ _ hpred]
    exact hfind

/-- Witness for C6 at a concrete store carrying a duplicated prompt. -/
theorem chat_dedup_first_wins_witness :
    wfStore (storeAfter [dupPromptA, dupPromptB]) = true ∧
    ((chatMessagesModel (fetchEvents "now" (storeAfter [dupPromptA, dupPromptB]))).Pairwise
        (fun a b => ¬(a.role = b.role ∧ a.content.take 50 = b.content.take 50)) ∧
     (∀ m ∈ chatMessagesModel (fetchEvents "now" (storeAfter [dupPromptA, dupPromptB])),
        (chronoMsgs (fetchEvents "now" (storeAfter [dupPromptA, dupPromptB]))).find?
          (fun x => x.role == m.role && x.content.take 50 == m.content.take 50) = some m)) :=
  ⟨rfl, chat_dedup_first_wins "now" (storeAfter [dupPromptA, dupPromptB]) rfl⟩

/-! ## Theorems: the aggregate projection -/

/-- The session component of the single stats pass is the session fold
alone. -/
theorem statsStep_sessions_proj (es : List UIEvent) :
    ∀ (a b : Nat) (l : List String),
      (es.foldl statsStep (a, b, l)).2.2 =
        es.foldl (fun acc e => sessStep acc e.sessionId) l := by
  induction es with
  | nil => intro a b l; rfl
  | cons e es ih =>
    intro a b l
    rw [List.foldl_cons, List.foldl_cons]
    have hstep : statsStep (a, b, l) e =
        (a + (if jsEqStr e.type "PostToolUse" then 1 else 0),
         b + (if jsEqStr e.type "PostToolUse" && includesModTool e.details.tool then 1 else 0),
         sessStep l e.sessionId) := rfl
    rw [hstep]
    exact ih _ _ _

/-- The session ids the SPA computes are the truncated session ids of
the raw records. -/
theorem fetchEvents_sessionIds (now : String) (store : List Json) :
    (fetchEvents now store).map (fun e => e.sessionId) = store.map truncSessionId := by
  unfold fetchEvents
  rw [List.map_map]
  apply List.map_congr_left
  intro r _
  simp [processRaw, truncSessionId]

/-- The session fold keeps a duplicate-free list whose length is the
number of distinct nonempty ids, together with whatever was already
accumulated. -/
theorem sessFold_card (ss : List String) :
    ∀ acc : List String, acc.Nodup →
      (ss.foldl sessStep acc).Nodup ∧
      (ss.foldl sessStep acc).length =
        (acc.toFinset ∪ (ss.filter (fun s => s != "")).toFinset).card := by
  induction ss with
  | nil =>
    intro acc hn
    refine ⟨hn, ?_⟩
    simp [List.toFinset_card_of_nodup hn]
  | cons s ss ih =>
    intro acc hn
    by_cases hs : (s != "") = true
    · by_cases hmem : s ∈ acc
      · have hstep : sessStep acc s = acc := by simp [sessStep, hs, hmem]
        have hfil : (s :: ss).filter (fun t => t != "") =
            s :: ss.filter (fun t => t != "") := by
          simp [List.filter_cons, hs]
        rw [List.foldl_cons, hstep, hfil]
        obtain ⟨hnd, hlen⟩ := ih acc hn
        refine ⟨hnd, ?_⟩
        rw [hlen]
        congr 1
        rw [List.toFinset_cons, Finset.union_insert,
          Finset.insert_eq_self.mpr (Finset.mem_union_left _ (List.mem_toFinset.mpr hmem))]
      · have hstep : sessStep acc s = acc ++ [s] := by simp [sessStep, hs, hmem]
        have hfil : (s :: ss).filter (fun t => t != "") =
            s :: ss.filter (fun t => t != "") := by
          simp [List.filter_cons, hs]
        rw [List.foldl_cons, hstep, hfil]
        have hnd2 : (acc ++ [s]).Nodup := by simp [List.nodup_append, hmem, hn]
        obtain ⟨hnd, hlen⟩ := ih (acc ++ [s]) hnd2
        refine ⟨hnd, ?_⟩
        rw [hlen]
        congr 1
        rw [List.toFinset_append, List.toFinset_cons, Finset.union_insert]
        ext x
        simp
    · have hstep : sessStep acc s = acc := by simp [sessStep, hs]
      have hfil : (s :: ss).filter (fun t => t != "") = ss.filter (fun t => t != "") := by
        simp [List.filter_cons, hs]
      rw [List.foldl_cons, hstep, hfil]
      exact ih acc hn

/-- Counterexample for C7 as stated: two records whose session_id
values share their first eight characters but differ afterwards are
counted as one session by the aggregate projection, while the number of
distinct session_id values across the stored records is two. -/
theorem stats_sessions_not_distinct_ids_cex :
    (statsOf (fetchEvents "now" [cexSessA, cexSessB])).sessions = 1 ∧
    distinctSessionIdValues [cexSessA, cexSessB] = 2 ∧ (1 : Nat) ≠ 2 :=
  ⟨rfl, rfl, by decide⟩

/-- C7 amended: the aggregate session count equals the number of
distinct truncated (first-eight-character) session identifiers among
the stored records, records with an absent or falsy session_id
excluded. -/
theorem stats_sessions_distinct_truncated (now : String) (store : List Json)
    (_h : wfStore store = true) :
    (statsOf (fetchEvents now store)).sessions =
      ((store.map truncSessionId).filter (fun s => s != "")).dedup.length := by
  show ((fetchEvents now store).foldl statsStep (0, 0, [])).2.2.length = _
  rw [statsStep_sessions_proj]
  rw [show (fetchEvents now store).foldl (fun acc e => sessStep acc e.sessionId) [] =
      ((fetchEvents now store).map (fun e => e.sessionId)).foldl sessStep [] from
    (List.foldl_map (fun e => e.sessionId) sessStep (fetchEvents now store) []).symm]
  rw [fetchEvents_sessionIds]
  obtain ⟨-, hlen⟩ := sessFold_card (store.map truncSessionId) [] List.nodup_nil
  rw [hlen, List.toFinset_nil, Finset.empty_union, List.card_toFinset]

/-- Witness for C7 amended at a concrete two-record store. -/
theorem stats_sessions_distinct_truncated_witness :
    wfStore [cexSessA, cexSessB] = true ∧
    (statsOf (fetchEvents "now" [cexSessA, cexSessB])).sessions =
      (([cexSessA, cexSessB].map truncSessionId).filter (fun s => s != "")).dedup.length :=
  ⟨rfl, stats_sessions_distinct_truncated "now" [cexSessA, cexSessB] rfl⟩

/-! ## Theorems: the file-operation projection -/

/-- Filtering then mapping is a filterMap. -/
theorem filter_map_eq_filterMap {α β : Type} (q : α → Bool) (h : α → β) (l : List α) :
    (l.filter q).map h = l.filterMap (fun x => if q x then some (h x) else none) := by
  induction l with
  | nil => rfl
  | cons x xs ih =>
    by_cases hq : q x = true
    · simp [List.filter_cons, List.filterMap_cons, hq, ih]
    · simp [List.filter_cons, List.filterMap_cons, hq, ih]

/-- The one-pass row characterization agrees with the per-event
condition and projection of the two-phase pipeline. -/
theorem fileOpRowOf_eq (now : String) (r : Json) :
    fileOpRowOf now r =
      (if jsEqStr (processRaw now r).type "PostToolUse"
           && includesTool (processRaw now r).details.tool then
         some { type := (processRaw now r).details.tool
              , path := (processRaw now r).details.path
              , timestamp := (processRaw now r).timestamp
              , details := jsOr
                  (jsOptChain ((processRaw now r).raw.getField "event") "tool_input")
                  (.obj []) }
       else none) := by
  simp [fileOpRowOf, processRaw]

/-- The file-operations pipeline equals the one-pass characterization
over the raw store. -/
theorem fileops_pipeline_eq (now : String) (store : List Json) :
    fileOperations (fetchEvents now store) = store.filterMap (fileOpRowOf now) := by
  unfold fileOperations fetchEvents
  induction store with
  | nil => rfl
  | cons r rs ih =>
    rw [List.map_cons, List.filterMap_cons, List.filter_cons, fileOpRowOf_eq]
    by_cases hc : (jsEqStr (processRaw now r).type "PostToolUse"
        && includesTool (processRaw now r).details.tool) = true
    · rw [if_pos hc, if_pos hc, List.map_cons, ih]
    · rw [if_neg hc, if_neg hc, ih]

/-- Counterexample for C9 as stated: a PostToolUse Grep record whose
tool_input carries only a search pattern, alongside a cwd, is displayed
with the cwd as its path; the claimed fallback chain would display the
pattern before ever reaching the cwd. -/
theorem fileops_path_chain_cex :
    ((fileOperations (fetchEvents "n" [cexToolRec])).map (fun r => r.path)) =
      [Json.str "/w"] ∧
    Json.str "/w" ≠ Json.str "foo" := by
  refine ⟨rfl, ?_⟩
  intro hcon
  injection hcon with hs
  exact absurd hs (by decide)

/-- C9 amended: the file-operation projection includes exactly the
PostToolUse records whose tool name is in the allow-list Read, Write,
Edit, Glob, Grep, and the displayed path follows the fallback chain
explicit file path, then generic path, then current working directory;
the search pattern is never consulted. -/
theorem fileops_filter_and_path_chain (now : String) (store : List Json)
    (_h : wfStore store = true) :
    fileOperations (fetchEvents now store) = store.filterMap (fileOpRowOf now) :=
  fileops_pipeline_eq now store

/-- Witness for C9 amended at a concrete one-record store. -/
theorem fileops_filter_and_path_chain_witness :
    wfStore [cexToolRec] = true ∧
    fileOperations (fetchEvents "n" [cexToolRec]) =
      [cexToolRec].filterMap (fileOpRowOf "n") :=
  ⟨rfl, fileops_filter_and_path_chain "n" [cexToolRec] rfl⟩
